import Mathlib

/-!
Shallow embedding of the polycentral-backend tournament server
(`src/server.js`, Postgres variant): the data model (users, tournaments,
participants), the entry transaction, administrative resolution, the
free-claim operation and the cron lifecycle sweep, together with proofs
of the documented invariants and scenarios.

Machine integers of the store (`INTEGER` columns) are modelled as `Int`
for balances and fees (they can in principle go negative) and `Nat` for
counters and timestamps (milliseconds since epoch).
-/

namespace Polycentral

/-- Tournament lifecycle status, as stored in the `status` column. -/
inductive TStatus
  | pending
  | active
  | closed
  | resolved
  deriving DecidableEq, Repr

/-- A row of the `users` table (the columns the core logic reads/writes). -/
structure User where
  id : Nat
  points : Int
  totalTournaments : Int
  wonTournaments : Int
  lastClaimDate : Option Nat
  deriving DecidableEq, Repr

/-- A row of the `tournaments` table (the columns the core logic reads/writes). -/
structure Tournament where
  id : Nat
  options : List String
  entryFee : Int
  maxParticipants : Nat
  currentParticipants : Nat
  prizePool : Int
  startTime : Nat
  endTime : Nat
  status : TStatus
  correctAnswer : Option String
  deriving DecidableEq, Repr

/-- A row of the `participants` table. -/
structure Participant where
  tournamentId : Nat
  userId : Nat
  prediction : String
  pointsPaid : Int
  deriving DecidableEq, Repr

/-- The persistent store: the three tables the core transactions touch. -/
structure DB where
  users : List User
  tournaments : List Tournament
  participants : List Participant
  deriving DecidableEq, Repr

/-- `SELECT * FROM users WHERE id = uid` (first match). -/
def findUser (db : DB) (uid : Nat) : Option User :=
  db.users.find? (fun u => decide (u.id = uid))

/-- `SELECT * FROM tournaments WHERE id = tid` (first match). -/
def findTournament (db : DB) (tid : Nat) : Option Tournament :=
  db.tournaments.find? (fun t => decide (t.id = tid))

/-- Fresh SERIAL id: one more than the largest user id in the table. -/
def nextUserId (db : DB) : Nat :=
  (db.users.map User.id).foldr max 0 + 1

/-- `POST /api/auth/register`: `INSERT INTO users (...) VALUES (..., 1000)`. -/
def registerUser (db : DB) : DB :=
  { db with users := db.users ++
      [{ id := nextUserId db, points := 1000, totalTournaments := 0,
         wonTournaments := 0, lastClaimDate := none }] }

/-- The distinct errors thrown by the entry transaction.  The first guard of
the handler raises the single message `Tournament not found or not active`
for a missing tournament and for one whose status is not `active` alike. -/
inductive EnterError
  | tournamentNotFoundOrNotActive
  | insufficientPoints
  | tournamentFull
  | alreadyParticipated
  deriving DecidableEq, Repr

/-- `POST /api/tournaments/:id/enter`: one transaction that joins the
tournament (restricted to `status = 'active'`) with the requesting user,
checks funds, capacity and prior participation in that order, then debits
the fee, inserts the participant row and bumps the tournament counters. -/
def enter (db : DB) (tid uid : Nat) (prediction : String) : Except EnterError DB :=
  match db.tournaments.find? (fun t => decide (t.id = tid ∧ t.status = TStatus.active)),
        db.users.find? (fun u => decide (u.id = uid)) with
  | some t, some u =>
    if u.points < t.entryFee then Except.error EnterError.insufficientPoints
    else if t.maxParticipants ≤ t.currentParticipants then Except.error EnterError.tournamentFull
    else if db.participants.any (fun p => decide (p.tournamentId = tid ∧ p.userId = uid)) then
      Except.error EnterError.alreadyParticipated
    else Except.ok
      { db with
        users := db.users.map (fun v =>
          if v.id = uid then { v with points := v.points - t.entryFee } else v),
        participants := db.participants ++
          [{ tournamentId := tid, userId := uid, prediction := prediction,
             pointsPaid := t.entryFee }],
        tournaments := db.tournaments.map (fun w =>
          if w.id = tid then
            { w with currentParticipants := w.currentParticipants + 1,
                     prizePool := w.prizePool + t.entryFee }
          else w) }
  | _, _ => Except.error EnterError.tournamentNotFoundOrNotActive

/-- Outcome reported by the resolve handler. -/
inductive ResolveOutcome
  | noWinners
  | winners (count : Nat) (prizePerWinner : Int)
  deriving DecidableEq, Repr

/-- One iteration of the winner loop:
`UPDATE users SET points = points + prize, won_tournaments = won_tournaments + 1 WHERE id = uid`. -/
def creditWinner (users : List User) (uid : Nat) (prize : Int) : List User :=
  users.map (fun u =>
    if u.id = uid then
      { u with points := u.points + prize, wonTournaments := u.wonTournaments + 1 }
    else u)

/-- Row effect of `UPDATE tournaments SET status = 'resolved',
correct_answer = answer WHERE id = tid`. -/
def resolveStamp (tid : Nat) (answer : String) (t : Tournament) : Tournament :=
  if t.id = tid then { t with status := TStatus.resolved, correctAnswer := some answer }
  else t

/-- The winner rows of the settlement query: participants of `tid` whose
prediction equals the supplied answer. -/
def winnersOf (db : DB) (tid : Nat) (answer : String) : List Participant :=
  db.participants.filter (fun p => decide (p.tournamentId = tid ∧ p.prediction = answer))

/-- Second half of the resolve transaction: the winner query (which joins
`tournaments`, so a missing tournament yields no winner rows) and the
per-winner credit loop paying `Math.floor(prize_pool / winners.length)`. -/
def resolveCredit (db1 : DB) (tid : Nat) (answer : String) : DB × ResolveOutcome :=
  match db1.tournaments.find? (fun t => decide (t.id = tid)) with
  | none => (db1, ResolveOutcome.noWinners)
  | some t =>
    if (winnersOf db1 tid answer).isEmpty then (db1, ResolveOutcome.noWinners)
    else
      ({ db1 with
          users :=
            (winnersOf db1 tid answer).foldl
              (fun acc p =>
                creditWinner acc p.userId
                  (Int.fdiv t.prizePool ((winnersOf db1 tid answer).length : Int)))
              db1.users },
       ResolveOutcome.winners (winnersOf db1 tid answer).length
         (Int.fdiv t.prizePool ((winnersOf db1 tid answer).length : Int)))

/-- `POST /api/admin/tournaments/:id/resolve`: unconditionally stamps
`status = 'resolved', correct_answer = answer` on the tournament (if any),
then runs the winner query and credit loop in the same transaction. -/
def resolve (db : DB) (tid : Nat) (answer : String) : DB × ResolveOutcome :=
  resolveCredit { db with tournaments := db.tournaments.map (resolveStamp tid answer) }
    tid answer

/-- Errors of the free-claim endpoint. `cooldownActive` carries the
remaining wait in milliseconds (the handler reports it in hours). -/
inductive ClaimError
  | userNotFound
  | cooldownActive (remainingMs : Nat)
  deriving DecidableEq, Repr

/-- `pointsToAdd = 500` in the handler. -/
def claimPoints : Int := 500

/-- `cooldownHours = 24`, in milliseconds. -/
def cooldownMs : Nat := 24 * 60 * 60 * 1000

/-- `POST /api/user/claim-free-points`: rejects while
`Math.abs(now - lastClaim)` is below the 24-hour cooldown, otherwise
credits 500 points and stamps `last_claim_date = NOW()`. -/
def claimFree (db : DB) (uid : Nat) (now : Nat) : Except ClaimError DB :=
  match db.users.find? (fun u => decide (u.id = uid)) with
  | none => Except.error ClaimError.userNotFound
  | some u =>
    let grant : DB := { db with users := db.users.map (fun v =>
      if v.id = uid then { v with points := v.points + claimPoints, lastClaimDate := some now }
      else v) }
    match u.lastClaimDate with
    | some last =>
      let elapsed := ((now : Int) - (last : Int)).natAbs
      if elapsed < cooldownMs then
        Except.error (ClaimError.cooldownActive (cooldownMs - elapsed))
      else Except.ok grant
    | none => Except.ok grant

/-- Row effect of `UPDATE tournaments SET status = 'active'
WHERE status = 'pending' AND start_time <= now`. -/
def sweepStart (now : Nat) (t : Tournament) : Tournament :=
  if t.status = TStatus.pending ∧ t.startTime ≤ now then { t with status := TStatus.active }
  else t

/-- Row effect of `UPDATE tournaments SET status = 'closed'
WHERE status = 'active' AND end_time <= now`. -/
def sweepClose (now : Nat) (t : Tournament) : Tournament :=
  if t.status = TStatus.active ∧ t.endTime ≤ now then { t with status := TStatus.closed }
  else t

/-- The cron sweep (`* * * * *`): first activates every pending tournament
whose start time has passed, then closes every active tournament whose end
time has passed, with a single `now` captured for both updates. -/
def sweep (db : DB) (now : Nat) : DB :=
  let db1 : DB := { db with tournaments := db.tournaments.map (sweepStart now) }
  { db1 with tournaments := db1.tournaments.map (sweepClose now) }

/-- The operations of the core, as invoked by the HTTP layer and the cron. -/
inductive Op
  | register
  | enterT (tid uid : Nat) (prediction : String)
  | resolveT (tid : Nat) (answer : String)
  | claimT (uid : Nat) (now : Nat)
  | sweepT (now : Nat)

/-- State transition of one operation; a failed transaction rolls back,
leaving the store unchanged. -/
def applyOp (db : DB) : Op → DB
  | Op.register => registerUser db
  | Op.enterT tid uid p =>
    match enter db tid uid p with
    | Except.ok db2 => db2
    | Except.error _ => db
  | Op.resolveT tid ans => (resolve db tid ans).1
  | Op.claimT uid now =>
    match claimFree db uid now with
    | Except.ok db2 => db2
    | Except.error _ => db
  | Op.sweepT now => sweep db now

/-- Run a sequence of operations. -/
def runOps (db : DB) (ops : List Op) : DB :=
  ops.foldl applyOp db

/-- The (tournamentId, userId) key of a participation row. -/
def pairOf (p : Participant) : Nat × Nat := (p.tournamentId, p.userId)

/-- The participation rows of tournament `tid`. -/
def partsOf (db : DB) (tid : Nat) : List Participant :=
  db.participants.filter (fun p => decide (p.tournamentId = tid))

/-- Well-formedness of a store state: primary keys are unique, at most one
participation per (tournament, user) pair, balances and paid fees are
non-negative, fees are non-negative, and each tournament's counters agree
with its participation rows. -/
def Valid (db : DB) : Prop :=
  (db.users.map User.id).Nodup ∧
  (db.tournaments.map Tournament.id).Nodup ∧
  (db.participants.map pairOf).Nodup ∧
  (∀ u ∈ db.users, 0 ≤ u.points) ∧
  (∀ p ∈ db.participants, 0 ≤ p.pointsPaid) ∧
  (∀ t ∈ db.tournaments,
    0 ≤ t.entryFee ∧
    t.currentParticipants ≤ t.maxParticipants ∧
    t.currentParticipants = (partsOf db t.id).length ∧
    t.prizePool = ((partsOf db t.id).map Participant.pointsPaid).sum)

instance (db : DB) : Decidable (Valid db) := by
  unfold Valid
  infer_instance

/-! ### Generic list lemmas about keyed rows -/

/-- A row-update that preserves the key leaves the key column unchanged. -/
theorem map_key_eq {α : Type} (keyOf : α → Nat) (g : α → α)
    (hg : ∀ v, keyOf (g v) = keyOf v) (l : List α) :
    (l.map g).map keyOf = l.map keyOf := by
  rw [List.map_map]
  exact List.map_congr_left (fun v _ => hg v)

/-- Looking a key up after a key-preserving row-update finds the updated row. -/
theorem find?_key_map {α : Type} (keyOf : α → Nat) (g : α → α)
    (hg : ∀ v, keyOf (g v) = keyOf v) (k : Nat) (l : List α) :
    (l.map g).find? (fun v => decide (keyOf v = k)) =
      (l.find? (fun v => decide (keyOf v = k))).map g := by
  rw [List.find?_map]
  have hp : ((fun v => decide (keyOf v = k)) ∘ g) = (fun v => decide (keyOf v = k)) := by
    funext v
    simp [Function.comp, hg]
  rw [hp]

/-- With unique keys, a member whose key satisfies the scan predicate is the
row `find?` returns, provided the predicate pins down the key. -/
theorem find?_eq_some_of_nodup {α : Type} (keyOf : α → Nat) {l : List α}
    (hnd : (l.map keyOf).Nodup) {x : α} (hx : x ∈ l) {p : α → Bool}
    (hpx : p x = true) (hkey : ∀ y ∈ l, p y = true → keyOf y = keyOf x) :
    l.find? p = some x := by
  have hs : (l.find? p).isSome := List.find?_isSome.mpr ⟨x, hx, hpx⟩
  obtain ⟨y, hy⟩ := Option.isSome_iff_exists.mp hs
  have hy1 := List.find?_some hy
  have hy2 := List.mem_of_find?_eq_some hy
  have hxy : y = x :=
    List.inj_on_of_nodup_map hnd hy2 hx (hkey y hy2 hy1)
  rw [hy, hxy]

/-- Every member of a list of naturals is bounded by its `foldr max 0`. -/
theorem le_foldr_max (l : List Nat) (x : Nat) (hx : x ∈ l) :
    x ≤ l.foldr max 0 := by
  induction l with
  | nil => cases hx
  | cons a l ih =>
    rcases List.mem_cons.mp hx with h | h
    · subst h; exact le_max_left _ _
    · exact le_trans (ih h) (le_max_right _ _)

/-! ### Characterization of the entry transaction -/

/-- The store produced by a successful entry of user `uid` into tournament
`tid` at fee `fee` with prediction `pred`. -/
def enterResult (db : DB) (tid uid : Nat) (pred : String) (fee : Int) : DB :=
  { db with
    users := db.users.map (fun v =>
      if v.id = uid then { v with points := v.points - fee } else v),
    participants := db.participants ++
      [{ tournamentId := tid, userId := uid, prediction := pred, pointsPaid := fee }],
    tournaments := db.tournaments.map (fun w =>
      if w.id = tid then
        { w with currentParticipants := w.currentParticipants + 1,
                 prizePool := w.prizePool + fee }
      else w) }

/-- Inversion: a successful entry means the active tournament and the user
were found, all guards passed, and the result is `enterResult`. -/
theorem enter_ok_inv {db db' : DB} {tid uid : Nat} {pred : String}
    (he : enter db tid uid pred = Except.ok db') :
    ∃ t u,
      db.tournaments.find? (fun t => decide (t.id = tid ∧ t.status = TStatus.active)) = some t ∧
      db.users.find? (fun u => decide (u.id = uid)) = some u ∧
      t.entryFee ≤ u.points ∧
      t.currentParticipants < t.maxParticipants ∧
      (∀ p ∈ db.participants, ¬(p.tournamentId = tid ∧ p.userId = uid)) ∧
      db' = enterResult db tid uid pred t.entryFee := by
  unfold enter at he
  cases hft : db.tournaments.find? (fun t => decide (t.id = tid ∧ t.status = TStatus.active)) with
  | none => rw [hft] at he; simp at he
  | some t =>
  cases hfu : db.users.find? (fun u => decide (u.id = uid)) with
  | none => rw [hft, hfu] at he; simp at he
  | some u =>
  rw [hft, hfu] at he
  simp only [] at he
  by_cases h1 : u.points < t.entryFee
  · rw [if_pos h1] at he; simp at he
  · rw [if_neg h1] at he
    by_cases h2 : t.maxParticipants ≤ t.currentParticipants
    · rw [if_pos h2] at he; simp at he
    · rw [if_neg h2] at he
      cases hany : db.participants.any (fun p => decide (p.tournamentId = tid ∧ p.userId = uid)) with
      | true => rw [hany] at he; simp at he
      | false =>
        rw [hany] at he
        simp only [Bool.false_eq_true, if_false, Except.ok.injEq] at he
        refine ⟨t, u, rfl, rfl, not_lt.mp h1, not_le.mp h2, ?_, he.symm⟩
        intro p hp
        have := List.any_eq_false.mp hany p hp
        simpa using this

/-- Under the four entry preconditions (active tournament, sufficient funds,
free capacity, no prior participation) the transaction succeeds and commits
exactly the `enterResult` effects. -/
theorem enter_ok_of {db : DB} {tid uid : Nat} {pred : String} {t : Tournament} {u : User}
    (hUnd : (db.users.map User.id).Nodup)
    (hTnd : (db.tournaments.map Tournament.id).Nodup)
    (ht : t ∈ db.tournaments) (htid : t.id = tid) (hact : t.status = TStatus.active)
    (hu : u ∈ db.users) (huid : u.id = uid)
    (hfee : t.entryFee ≤ u.points)
    (hcap : t.currentParticipants < t.maxParticipants)
    (hnop : ∀ p ∈ db.participants, ¬(p.tournamentId = tid ∧ p.userId = uid)) :
    enter db tid uid pred = Except.ok (enterResult db tid uid pred t.entryFee) := by
  have hft : db.tournaments.find? (fun w => decide (w.id = tid ∧ w.status = TStatus.active))
      = some t :=
    find?_eq_some_of_nodup Tournament.id hTnd ht (by simp [htid, hact])
      (fun y _ hpy => by
        simp only [decide_eq_true_eq] at hpy
        exact hpy.1.trans htid.symm)
  have hfu : db.users.find? (fun v => decide (v.id = uid)) = some u :=
    find?_eq_some_of_nodup User.id hUnd hu (by simp [huid])
      (fun y _ hpy => by
        simp only [decide_eq_true_eq] at hpy
        exact hpy.trans huid.symm)
  have hany : db.participants.any (fun p => decide (p.tournamentId = tid ∧ p.userId = uid))
      = false := by
    rw [List.any_eq_false]
    intro p hp
    simpa using hnop p hp
  unfold enter
  rw [hft, hfu]
  simp only []
  rw [if_neg (not_lt.mpr hfee), if_neg (not_le.mpr hcap), hany]
  simp [enterResult]

/-! ### Preservation of `Valid` by each operation -/

/-- A user-table rewrite that keeps ids and non-negativity keeps the store valid. -/
theorem valid_map_users {db : DB} (g : User → User)
    (hid : ∀ v, (g v).id = v.id)
    (hpts : ∀ v, 0 ≤ v.points → 0 ≤ (g v).points)
    (h : Valid db) : Valid { db with users := db.users.map g } := by
  obtain ⟨h1, h2, h3, h4, h5, h6⟩ := h
  refine ⟨?_, h2, h3, ?_, h5, h6⟩
  · rw [map_key_eq User.id g hid]
    exact h1
  · intro v' hv'
    obtain ⟨v, hv, rfl⟩ := List.mem_map.mp hv'
    exact hpts v (h4 v hv)

/-- A tournament-table rewrite that keeps ids, fees, capacities, counters and
pools keeps the store valid. -/
theorem valid_map_tournaments {db : DB} (g : Tournament → Tournament)
    (hid : ∀ t, (g t).id = t.id)
    (hfee : ∀ t, (g t).entryFee = t.entryFee)
    (hmax : ∀ t, (g t).maxParticipants = t.maxParticipants)
    (hcur : ∀ t, (g t).currentParticipants = t.currentParticipants)
    (hpool : ∀ t, (g t).prizePool = t.prizePool)
    (h : Valid db) : Valid { db with tournaments := db.tournaments.map g } := by
  obtain ⟨h1, h2, h3, h4, h5, h6⟩ := h
  refine ⟨h1, ?_, h3, h4, h5, ?_⟩
  · rw [map_key_eq Tournament.id g hid]
    exact h2
  · intro t' ht'
    obtain ⟨t, ht, rfl⟩ := List.mem_map.mp ht'
    obtain ⟨c1, c2, c3, c4⟩ := h6 t ht
    refine ⟨?_, ?_, ?_, ?_⟩
    · rw [hfee]; exact c1
    · rw [hmax, hcur]; exact c2
    · rw [hcur, hid]; exact c3
    · rw [hpool, hid]; exact c4

/-- Registration preserves validity: the fresh SERIAL id is unused and the
initial balance is 1000. -/
theorem valid_registerUser {db : DB} (h : Valid db) : Valid (registerUser db) := by
  obtain ⟨h1, h2, h3, h4, h5, h6⟩ := h
  unfold registerUser
  refine ⟨?_, h2, h3, ?_, h5, h6⟩
  · rw [List.map_append, List.nodup_append]
    refine ⟨h1, List.nodup_singleton _, ?_⟩
    intro x hx hx'
    simp only [List.map_cons, List.map_nil, List.mem_singleton] at hx'
    subst hx'
    have hle := le_foldr_max (db.users.map User.id) _ hx
    unfold nextUserId at hle
    omega
  · intro v hv
    rcases List.mem_append.mp hv with hmem | hmem
    · exact h4 v hmem
    · simp only [List.mem_singleton] at hmem
      subst hmem
      norm_num

/-- The lifecycle sweep preserves validity: it only rewrites statuses. -/
theorem valid_sweep {db : DB} (now : Nat) (h : Valid db) : Valid (sweep db now) := by
  have hA : Valid { db with tournaments := db.tournaments.map (sweepStart now) } :=
    valid_map_tournaments (sweepStart now)
      (fun t => by unfold sweepStart; split <;> rfl)
      (fun t => by unfold sweepStart; split <;> rfl)
      (fun t => by unfold sweepStart; split <;> rfl)
      (fun t => by unfold sweepStart; split <;> rfl)
      (fun t => by unfold sweepStart; split <;> rfl) h
  exact valid_map_tournaments (sweepClose now)
    (fun t => by unfold sweepClose; split <;> rfl)
    (fun t => by unfold sweepClose; split <;> rfl)
    (fun t => by unfold sweepClose; split <;> rfl)
    (fun t => by unfold sweepClose; split <;> rfl)
    (fun t => by unfold sweepClose; split <;> rfl) hA

/-! ### Characterization of the free claim -/

/-- The store produced by a successful free claim of user `uid` at time `now`. -/
def claimResult (db : DB) (uid now : Nat) : DB :=
  { db with users := db.users.map (fun v =>
    if v.id = uid then { v with points := v.points + claimPoints, lastClaimDate := some now }
    else v) }

/-- Inversion: a successful free claim means the user was found, any recorded
previous claim is at least the cooldown away from `now`, and the result is
`claimResult`. -/
theorem claimFree_ok_inv {db db' : DB} {uid now : Nat}
    (hc : claimFree db uid now = Except.ok db') :
    ∃ u, db.users.find? (fun u => decide (u.id = uid)) = some u ∧
      (∀ last, u.lastClaimDate = some last → cooldownMs ≤ ((now : Int) - last).natAbs) ∧
      db' = claimResult db uid now := by
  unfold claimFree at hc
  cases hfu : db.users.find? (fun u => decide (u.id = uid)) with
  | none => rw [hfu] at hc; simp at hc
  | some u =>
  rw [hfu] at hc
  simp only [] at hc
  cases hlast : u.lastClaimDate with
  | none =>
    rw [hlast] at hc
    simp only [Except.ok.injEq] at hc
    exact ⟨u, rfl, by simp [hlast], hc.symm⟩
  | some last =>
    rw [hlast] at hc
    simp only [] at hc
    by_cases hcd : ((now : Int) - last).natAbs < cooldownMs
    · rw [if_pos hcd] at hc; simp at hc
    · rw [if_neg hcd] at hc
      simp only [Except.ok.injEq] at hc
      refine ⟨u, rfl, ?_, hc.symm⟩
      intro l hl
      rw [hlast] at hl
      cases hl
      exact not_lt.mp hcd

/-- A successful free claim preserves validity. -/
theorem valid_claimFree {db db' : DB} {uid now : Nat}
    (h : Valid db) (hc : claimFree db uid now = Except.ok db') : Valid db' := by
  obtain ⟨u, _, _, rfl⟩ := claimFree_ok_inv hc
  refine valid_map_users _ (fun v => by split <;> rfl) ?_ h
  intro v hv
  by_cases hid : v.id = uid
  · rw [if_pos hid]
    show 0 ≤ v.points + claimPoints
    unfold claimPoints
    omega
  · rw [if_neg hid]
    exact hv

/-! ### Characterization of settlement -/

/-- Crediting winners keeps the id column of the users table unchanged. -/
theorem credit_fold_ids (ws : List Participant) (prize : Int) (users : List User) :
    ((ws.foldl (fun acc p => creditWinner acc p.userId prize) users).map User.id)
      = users.map User.id := by
  induction ws generalizing users with
  | nil => rfl
  | cons w ws ih =>
    simp only [List.foldl_cons]
    rw [ih]
    unfold creditWinner
    exact map_key_eq User.id
      (fun u => if u.id = w.userId then
        { u with points := u.points + prize, wonTournaments := u.wonTournaments + 1 }
        else u)
      (fun v => by by_cases hvu : v.id = w.userId <;> simp [hvu]) users

/-- Crediting winners a non-negative prize keeps balances non-negative. -/
theorem credit_fold_nonneg (ws : List Participant) (prize : Int) (hp : 0 ≤ prize)
    (users : List User) (h : ∀ v ∈ users, 0 ≤ v.points) :
    ∀ v ∈ ws.foldl (fun acc p => creditWinner acc p.userId prize) users, 0 ≤ v.points := by
  induction ws generalizing users with
  | nil => exact h
  | cons w ws ih =>
    simp only [List.foldl_cons]
    apply ih
    intro v hv
    unfold creditWinner at hv
    obtain ⟨v0, hv0, rfl⟩ := List.mem_map.mp hv
    by_cases hid : v0.id = w.userId
    · rw [if_pos hid]
      show 0 ≤ v0.points + prize
      have := h v0 hv0
      omega
    · rw [if_neg hid]
      exact h v0 hv0

/-- A valid store has non-negative prize pools. -/
theorem prizePool_nonneg {db : DB} (h : Valid db) {t : Tournament}
    (ht : t ∈ db.tournaments) : 0 ≤ t.prizePool := by
  obtain ⟨_, _, _, _, h5, h6⟩ := h
  rw [(h6 t ht).2.2.2]
  apply List.sum_nonneg
  intro x hx
  obtain ⟨p, hp, rfl⟩ := List.mem_map.mp hx
  exact h5 p (List.mem_filter.mp hp).1

/-- The stamping half of the resolve transaction preserves validity. -/
theorem valid_resolveStampMap {db : DB} (tid : Nat) (ans : String) (h : Valid db) :
    Valid { db with tournaments := db.tournaments.map (resolveStamp tid ans) } :=
  valid_map_tournaments _
    (fun t => by unfold resolveStamp; split <;> rfl)
    (fun t => by unfold resolveStamp; split <;> rfl)
    (fun t => by unfold resolveStamp; split <;> rfl)
    (fun t => by unfold resolveStamp; split <;> rfl)
    (fun t => by unfold resolveStamp; split <;> rfl) h

/-- The credit half of the resolve transaction preserves validity. -/
theorem valid_resolveCredit {db1 : DB} (tid : Nat) (ans : String) (h : Valid db1) :
    Valid (resolveCredit db1 tid ans).1 := by
  unfold resolveCredit
  cases hft : db1.tournaments.find? (fun t => decide (t.id = tid)) with
  | none => exact h
  | some t =>
    simp only []
    by_cases hws : (winnersOf db1 tid ans).isEmpty = true
    · rw [if_pos hws]
      exact h
    · rw [if_neg hws]
      have hprize : 0 ≤ Int.fdiv t.prizePool ((winnersOf db1 tid ans).length : Int) :=
        Int.fdiv_nonneg (prizePool_nonneg h (List.mem_of_find?_eq_some hft))
          (Int.natCast_nonneg _)
      obtain ⟨h1, h2, h3, h4, h5, h6⟩ := h
      exact ⟨by rw [credit_fold_ids]; exact h1, h2, h3,
        credit_fold_nonneg _ _ hprize _ h4, h5, h6⟩

/-- Settlement preserves validity. -/
theorem valid_resolve {db : DB} (tid : Nat) (ans : String) (h : Valid db) :
    Valid (resolve db tid ans).1 := by
  unfold resolve
  exact valid_resolveCredit tid ans (valid_resolveStampMap tid ans h)

/-- Effect of a committed entry on the participation rows of a tournament:
only the entered tournament gains the one new row. -/
theorem partsOf_enterResult (db : DB) (tid uid : Nat) (pred : String) (fee : Int) (k : Nat) :
    partsOf (enterResult db tid uid pred fee) k =
      partsOf db k ++ (if tid = k then
        [{ tournamentId := tid, userId := uid, prediction := pred, pointsPaid := fee }] else []) := by
  unfold partsOf enterResult
  rw [List.filter_append]
  congr 1
  by_cases htk : tid = k
  · simp [htk]
  · simp [htk]

/-- A committed entry preserves validity. -/
theorem valid_enter {db db' : DB} {tid uid : Nat} {pred : String}
    (h : Valid db) (he : enter db tid uid pred = Except.ok db') : Valid db' := by
  obtain ⟨t, u, hft, hfu, hfee, hcap, hnop, rfl⟩ := enter_ok_inv he
  have htmem : t ∈ db.tournaments := List.mem_of_find?_eq_some hft
  have htp := List.find?_some hft
  simp only [decide_eq_true_eq] at htp
  obtain ⟨htid, hact⟩ := htp
  have humem : u ∈ db.users := List.mem_of_find?_eq_some hfu
  have hup := List.find?_some hfu
  simp only [decide_eq_true_eq] at hup
  obtain ⟨h1, h2, h3, h4, h5, h6⟩ := h
  refine ⟨?_, ?_, ?_, ?_, ?_, ?_⟩
  · show ((db.users.map fun v =>
      if v.id = uid then { v with points := v.points - t.entryFee } else v).map User.id).Nodup
    rw [map_key_eq User.id _ (fun v => by by_cases hvu : v.id = uid <;> simp [hvu])]
    exact h1
  · show ((db.tournaments.map fun w =>
      if w.id = tid then
        { w with currentParticipants := w.currentParticipants + 1,
                 prizePool := w.prizePool + t.entryFee }
      else w).map Tournament.id).Nodup
    rw [map_key_eq Tournament.id _ (fun w => by by_cases hw : w.id = tid <;> simp [hw])]
    exact h2
  · show ((db.participants ++
      ([{ tournamentId := tid, userId := uid, prediction := pred,
          pointsPaid := t.entryFee }] : List Participant)).map pairOf).Nodup
    rw [List.map_append, List.nodup_append]
    refine ⟨h3, List.nodup_singleton _, ?_⟩
    intro a ha ha'
    simp only [List.map_cons, List.map_nil, List.mem_singleton] at ha'
    subst ha'
    obtain ⟨p, hp, hpa⟩ := List.mem_map.mp ha
    simp only [pairOf, Prod.mk.injEq] at hpa
    exact hnop p hp hpa
  · intro v' hv'
    obtain ⟨v, hv, rfl⟩ := List.mem_map.mp hv'
    by_cases hvid : v.id = uid
    · have hvu : v = u := List.inj_on_of_nodup_map h1 hv humem (by rw [hvid, hup])
      subst hvu
      simp only [hvid, if_pos]
      show 0 ≤ v.points - t.entryFee
      omega
    · simp only [hvid, if_neg, if_false]
      exact h4 v hv
  · intro p hp
    rcases List.mem_append.mp hp with hmem | hmem
    · exact h5 p hmem
    · simp only [List.mem_singleton] at hmem
      subst hmem
      show 0 ≤ t.entryFee
      exact (h6 t htmem).1
  · intro w' hw'
    obtain ⟨w, hw, rfl⟩ := List.mem_map.mp hw'
    obtain ⟨c1, c2, c3, c4⟩ := h6 w hw
    by_cases hwid : w.id = tid
    · have hwt : w = t := List.inj_on_of_nodup_map h2 hw htmem (by rw [hwid, htid])
      subst hwt
      simp only [hwid, if_pos]
      refine ⟨c1, ?_, ?_, ?_⟩
      · show w.currentParticipants + 1 ≤ w.maxParticipants
        omega
      · show w.currentParticipants + 1 = _
        rw [hwid] at c3
        rw [partsOf_enterResult]
        simp [c3]
      · show w.prizePool + w.entryFee = _
        rw [hwid] at c4
        rw [partsOf_enterResult]
        simp [c4]
    · simp only [hwid, if_neg, if_false]
      refine ⟨c1, c2, ?_, ?_⟩
      · rw [partsOf_enterResult, if_neg (fun hk => hwid hk.symm)]
        simpa using c3
      · rw [partsOf_enterResult, if_neg (fun hk => hwid hk.symm)]
        simpa using c4

/-- Every operation of the service preserves validity. -/
theorem valid_applyOp {db : DB} (h : Valid db) (op : Op) : Valid (applyOp db op) := by
  cases op with
  | register => exact valid_registerUser h
  | enterT tid uid p =>
    show Valid (match enter db tid uid p with
      | Except.ok db2 => db2
      | Except.error _ => db)
    cases he : enter db tid uid p with
    | ok db2 => exact valid_enter h he
    | error _ => exact h
  | resolveT tid ans => exact valid_resolve tid ans h
  | claimT uid now =>
    show Valid (match claimFree db uid now with
      | Except.ok db2 => db2
      | Except.error _ => db)
    cases hc : claimFree db uid now with
    | ok db2 => exact valid_claimFree h hc
    | error _ => exact h
  | sweepT now => exact valid_sweep now h

/-- Every operation sequence preserves validity. -/
theorem valid_runOps {db : DB} (h : Valid db) (ops : List Op) : Valid (runOps db ops) := by
  induction ops generalizing db with
  | nil => exact h
  | cons op ops ih => exact ih (valid_applyOp h op)

/-! ### Lifecycle ordering -/

/-- Position of a status along the lifecycle chain
pending, active, closed, resolved. -/
def statusIdx : TStatus → Nat
  | TStatus.pending => 0
  | TStatus.active => 1
  | TStatus.closed => 2
  | TStatus.resolved => 3

/-- Pointwise relation between a list and its image under a row rewrite. -/
theorem forall₂_self_map {α : Type} (r : α → α → Prop) (g : α → α) (l : List α)
    (h : ∀ x ∈ l, r x (g x)) : List.Forall₂ r l (l.map g) := by
  induction l with
  | nil => exact List.Forall₂.nil
  | cons a l ih =>
    exact List.Forall₂.cons (h a (List.mem_cons_self a l))
      (ih fun x hx => h x (List.mem_cons_of_mem a hx))

/-- The combined row effect of one sweep pass never moves a status backwards,
keeps resolved tournaments resolved, and never produces resolved. -/
theorem sweepRow_mono (now : Nat) (t : Tournament) :
    statusIdx t.status ≤ statusIdx (sweepClose now (sweepStart now t)).status ∧
    (t.status = TStatus.resolved →
      (sweepClose now (sweepStart now t)).status = TStatus.resolved) ∧
    ((sweepClose now (sweepStart now t)).status = TStatus.resolved →
      t.status = TStatus.resolved) := by
  unfold sweepStart sweepClose
  cases hts : t.status <;> split_ifs <;> simp_all [statusIdx]

/-- One sweep pass is idempotent on each row. -/
theorem sweepRow_idem (now : Nat) (t : Tournament) :
    sweepClose now (sweepStart now (sweepClose now (sweepStart now t))) =
      sweepClose now (sweepStart now t) := by
  unfold sweepStart sweepClose
  split_ifs <;> simp_all

/-- The tournaments column after a sweep, as a single row rewrite. -/
theorem sweep_tournaments (db : DB) (now : Nat) :
    (sweep db now).tournaments =
      db.tournaments.map (fun t => sweepClose now (sweepStart now t)) := by
  unfold sweep
  simp [List.map_map, Function.comp]

/-- Re-running the sweep at the same instant changes nothing. -/
theorem sweep_idem (db : DB) (now : Nat) : sweep (sweep db now) now = sweep db now := by
  unfold sweep
  simp only [List.map_map]
  congr 1
  apply List.map_congr_left
  intro t _
  show sweepClose now (sweepStart now (sweepClose now (sweepStart now t))) =
    sweepClose now (sweepStart now t)
  exact sweepRow_idem now t

/-- The credit half never changes the tournaments column. -/
theorem resolveCredit_tournaments (db1 : DB) (tid : Nat) (ans : String) :
    (resolveCredit db1 tid ans).1.tournaments = db1.tournaments := by
  unfold resolveCredit
  cases db1.tournaments.find? (fun t => decide (t.id = tid)) with
  | none => rfl
  | some t =>
    simp only []
    by_cases hws : (winnersOf db1 tid ans).isEmpty = true
    · rw [if_pos hws]
    · rw [if_neg hws]

/-- The credit half never touches the participants table. -/
theorem resolveCredit_participants (db1 : DB) (tid : Nat) (ans : String) :
    (resolveCredit db1 tid ans).1.participants = db1.participants := by
  unfold resolveCredit
  cases db1.tournaments.find? (fun t => decide (t.id = tid)) with
  | none => rfl
  | some t =>
    simp only []
    by_cases hws : (winnersOf db1 tid ans).isEmpty = true
    · rw [if_pos hws]
    · rw [if_neg hws]

/-- Settlement rewrites the tournaments column by the resolve stamp,
whatever the outcome branch. -/
theorem resolve_fst_tournaments (db : DB) (tid : Nat) (ans : String) :
    (resolve db tid ans).1.tournaments = db.tournaments.map (resolveStamp tid ans) := by
  unfold resolve
  rw [resolveCredit_tournaments]

/-- Settlement never touches the participants table. -/
theorem resolve_fst_participants (db : DB) (tid : Nat) (ans : String) :
    (resolve db tid ans).1.participants = db.participants := by
  unfold resolve
  rw [resolveCredit_participants]

/-- When the tournament id matches nothing, the credit half is a no-op. -/
theorem resolveCredit_missing (db1 : DB) (tid : Nat) (ans : String)
    (hfind : db1.tournaments.find? (fun t => decide (t.id = tid)) = none) :
    resolveCredit db1 tid ans = (db1, ResolveOutcome.noWinners) := by
  unfold resolveCredit
  rw [hfind]

/-- Resolving an id that matches no tournament succeeds as a no-winner
resolution and changes nothing. -/
theorem resolve_missing (db : DB) (tid : Nat) (ans : String)
    (hnone : findTournament db tid = none) :
    (resolve db tid ans).1.users = db.users ∧
    (resolve db tid ans).2 = ResolveOutcome.noWinners ∧
    (resolve db tid ans).1.tournaments = db.tournaments := by
  have hnone' : db.tournaments.find? (fun t => decide (t.id = tid)) = none := hnone
  have hnot : ∀ t ∈ db.tournaments, ¬ t.id = tid := by
    intro t ht
    have := List.find?_eq_none.mp hnone' t ht
    simpa using this
  have hstamp : db.tournaments.map (resolveStamp tid ans) = db.tournaments := by
    have hrow : ∀ t ∈ db.tournaments, resolveStamp tid ans t = t := by
      intro t ht
      unfold resolveStamp
      rw [if_neg (hnot t ht)]
    calc db.tournaments.map (resolveStamp tid ans)
        = db.tournaments.map id := List.map_congr_left (fun t ht => hrow t ht)
      _ = db.tournaments := List.map_id _
  have hfind : (db.tournaments.map (resolveStamp tid ans)).find?
      (fun t => decide (t.id = tid)) = none := by
    rw [find?_key_map Tournament.id (resolveStamp tid ans)
      (fun t => by unfold resolveStamp; split <;> rfl) tid db.tournaments]
    rw [hnone']
    rfl
  have hres : resolve db tid ans =
      ({ db with tournaments := db.tournaments.map (resolveStamp tid ans) },
        ResolveOutcome.noWinners) := by
    unfold resolve
    exact resolveCredit_missing _ tid ans hfind
  rw [hres]
  exact ⟨rfl, rfl, hstamp⟩

/-- Pointwise composition of two pointwise list relations, for a transitive
relation. -/
theorem forall₂_trans {α : Type} {r : α → α → Prop}
    (htr : ∀ a b c, r a b → r b c → r a c) :
    ∀ {l1 l2 l3 : List α}, List.Forall₂ r l1 l2 → List.Forall₂ r l2 l3 →
      List.Forall₂ r l1 l3 := by
  intro l1 l2 l3 h12 h23
  induction h12 generalizing l3 with
  | nil => cases h23; exact List.Forall₂.nil
  | cons hab h ih =>
    cases h23 with
    | cons hbc h23 => exact List.Forall₂.cons (htr _ _ _ hab hbc) (ih h23)

/-- Any status sits at or below the end of the lifecycle chain. -/
theorem statusIdx_le_three (s : TStatus) : statusIdx s ≤ 3 := by
  cases s <;> simp [statusIdx]

/-- The lifecycle relation guaranteed by a single operation: the status index
never decreases and resolved stays resolved. -/
def StatusStep (t t' : Tournament) : Prop :=
  statusIdx t.status ≤ statusIdx t'.status ∧
  (t.status = TStatus.resolved → t'.status = TStatus.resolved)

/-- Every operation moves every tournament's status monotonically along the
lifecycle chain, and resolved is terminal. -/
theorem applyOp_status_mono (db : DB) (op : Op) :
    List.Forall₂ StatusStep db.tournaments (applyOp db op).tournaments := by
  have hrefl : ∀ (l : List Tournament), List.Forall₂ StatusStep l l :=
    fun l => List.forall₂_same.mpr (fun x _ => ⟨le_refl _, id⟩)
  cases op with
  | register => exact hrefl _
  | enterT tid uid p =>
    show List.Forall₂ StatusStep db.tournaments
      (match enter db tid uid p with
        | Except.ok db2 => db2
        | Except.error _ => db).tournaments
    cases he : enter db tid uid p with
    | error e => exact hrefl _
    | ok db2 =>
      obtain ⟨t, u, _, _, _, _, _, rfl⟩ := enter_ok_inv he
      exact forall₂_self_map _ _ _ (fun x _ => by
        by_cases hx : x.id = tid <;> simp [StatusStep, hx])
  | resolveT tid ans =>
    show List.Forall₂ StatusStep db.tournaments (resolve db tid ans).1.tournaments
    rw [resolve_fst_tournaments]
    refine forall₂_self_map _ _ _ (fun x _ => ?_)
    unfold resolveStamp
    split
    · exact ⟨statusIdx_le_three _, fun _ => rfl⟩
    · exact ⟨le_refl _, id⟩
  | claimT uid now =>
    show List.Forall₂ StatusStep db.tournaments
      (match claimFree db uid now with
        | Except.ok db2 => db2
        | Except.error _ => db).tournaments
    cases hc : claimFree db uid now with
    | error e => exact hrefl _
    | ok db2 =>
      obtain ⟨u, _, _, rfl⟩ := claimFree_ok_inv hc
      exact hrefl _
  | sweepT now =>
    show List.Forall₂ StatusStep db.tournaments (sweep db now).tournaments
    rw [sweep_tournaments]
    exact forall₂_self_map _ _ _
      (fun x _ => ⟨(sweepRow_mono now x).1, (sweepRow_mono now x).2.1⟩)

/-- Whole sequences of operations move statuses monotonically. -/
theorem runOps_status_mono (db : DB) (ops : List Op) :
    List.Forall₂ StatusStep db.tournaments (runOps db ops).tournaments := by
  induction ops generalizing db with
  | nil =>
    exact List.forall₂_same.mpr (fun x _ => ⟨le_refl _, id⟩)
  | cons op ops ih =>
    exact forall₂_trans
      (fun a b c hab hbc => ⟨le_trans hab.1 hbc.1, fun h => hbc.2 (hab.2 h)⟩)
      (applyOp_status_mono db op) (ih (applyOp db op))

/-- The sweep never produces a resolved status it was not given. -/
theorem sweep_no_resolve (db : DB) (now : Nat) :
    List.Forall₂ (fun t t' => t'.status = TStatus.resolved → t.status = TStatus.resolved)
      db.tournaments (sweep db now).tournaments := by
  rw [sweep_tournaments]
  exact forall₂_self_map _ _ _ (fun x _ => (sweepRow_mono now x).2.2)

/-- Entry, free claim and registration never touch any tournament status. -/
theorem applyOp_status_preserved (db : DB) (op : Op)
    (hr : ∀ tid ans, op ≠ Op.resolveT tid ans) (hs : ∀ n, op ≠ Op.sweepT n) :
    List.Forall₂ (fun t t' => t'.status = t.status)
      db.tournaments (applyOp db op).tournaments := by
  have hrefl : ∀ l : List Tournament,
      List.Forall₂ (fun t t' => t'.status = t.status) l l :=
    fun l => List.forall₂_same.mpr (fun x _ => rfl)
  cases op with
  | register => exact hrefl _
  | enterT tid uid p =>
    show List.Forall₂ _ db.tournaments
      (match enter db tid uid p with
        | Except.ok db2 => db2
        | Except.error _ => db).tournaments
    cases he : enter db tid uid p with
    | error e => exact hrefl _
    | ok db2 =>
      obtain ⟨t, u, _, _, _, _, _, rfl⟩ := enter_ok_inv he
      exact forall₂_self_map _ _ _ (fun x _ => by
        by_cases hx : x.id = tid <;> simp [hx])
  | resolveT tid ans => exact absurd rfl (hr tid ans)
  | claimT uid now =>
    show List.Forall₂ _ db.tournaments
      (match claimFree db uid now with
        | Except.ok db2 => db2
        | Except.error _ => db).tournaments
    cases hc : claimFree db uid now with
    | error e => exact hrefl _
    | ok db2 =>
      obtain ⟨u, _, _, rfl⟩ := claimFree_ok_inv hc
      exact hrefl _
  | sweepT n => exact absurd rfl (hs n)

/-- Participation rows are append-only under every operation. -/
theorem applyOp_participants_append (db : DB) (op : Op) :
    ∃ tail, (applyOp db op).participants = db.participants ++ tail := by
  cases op with
  | register => exact ⟨[], by simp [applyOp, registerUser]⟩
  | enterT tid uid p =>
    show ∃ tail, (match enter db tid uid p with
      | Except.ok db2 => db2
      | Except.error _ => db).participants = db.participants ++ tail
    cases he : enter db tid uid p with
    | error e => exact ⟨[], by simp⟩
    | ok db2 =>
      obtain ⟨t, u, _, _, _, _, _, rfl⟩ := enter_ok_inv he
      exact ⟨[{ tournamentId := tid, userId := uid, prediction := p,
                pointsPaid := t.entryFee }], rfl⟩
  | resolveT tid ans =>
    exact ⟨[], by rw [List.append_nil]; exact resolve_fst_participants db tid ans⟩
  | claimT uid now =>
    show ∃ tail, (match claimFree db uid now with
      | Except.ok db2 => db2
      | Except.error _ => db).participants = db.participants ++ tail
    cases hc : claimFree db uid now with
    | error e => exact ⟨[], by simp⟩
    | ok db2 =>
      obtain ⟨u, _, _, rfl⟩ := claimFree_ok_inv hc
      exact ⟨[], by simp [claimResult]⟩
  | sweepT now => exact ⟨[], by simp [applyOp, sweep]⟩

/-- Participation rows are append-only under every operation sequence. -/
theorem runOps_participants_append (db : DB) (ops : List Op) :
    ∃ tail, (runOps db ops).participants = db.participants ++ tail := by
  induction ops generalizing db with
  | nil => exact ⟨[], by simp [runOps]⟩
  | cons op ops ih =>
    obtain ⟨tl1, h1⟩ := applyOp_participants_append db op
    obtain ⟨tl2, h2⟩ := ih (applyOp db op)
    exact ⟨tl1 ++ tl2, by
      show (runOps (applyOp db op) ops).participants = _
      rw [h2, h1, List.append_assoc]⟩

/-! ### Observable effects of settlement -/

/-- When the winner rows carry pairwise distinct user ids, the credit loop
amounts to one conditional rewrite of the users table. -/
theorem credit_fold_eq_map (ws : List Participant) (prize : Int) (users : List User)
    (hnd : (ws.map Participant.userId).Nodup) :
    ws.foldl (fun acc p => creditWinner acc p.userId prize) users =
      users.map (fun v =>
        if v.id ∈ ws.map Participant.userId then
          { v with points := v.points + prize, wonTournaments := v.wonTournaments + 1 }
        else v) := by
  induction ws generalizing users with
  | nil => simp
  | cons w ws ih =>
    simp only [List.map_cons] at hnd ⊢
    obtain ⟨hw, hnd'⟩ := List.nodup_cons.mp hnd
    simp only [List.foldl_cons]
    rw [ih _ hnd']
    unfold creditWinner
    rw [List.map_map]
    apply List.map_congr_left
    intro v _
    simp only [Function.comp_apply]
    by_cases h1 : v.id = w.userId
    · have h2 : v.id ∉ List.map Participant.userId ws := by rw [h1]; exact hw
      rw [if_pos h1]
      show (if v.id ∈ List.map Participant.userId ws then _ else _) = _
      rw [if_neg h2, if_pos (List.mem_cons.mpr (Or.inl h1))]
    · rw [if_neg h1]
      by_cases h3 : v.id ∈ List.map Participant.userId ws
      · rw [if_pos h3, if_pos (List.mem_cons.mpr (Or.inr h3))]
      · rw [if_neg h3, if_neg (fun hc => by
          rcases List.mem_cons.mp hc with hcc | hcc
          · exact h1 hcc
          · exact h3 hcc)]

/-- In a valid store the winner rows of one tournament have pairwise
distinct user ids. -/
theorem winners_userIds_nodup {db : DB} (h : Valid db) (tid : Nat) (ans : String) :
    ((winnersOf db tid ans).map Participant.userId).Nodup := by
  obtain ⟨_, _, h3, _, _, _⟩ := h
  have hsub : (winnersOf db tid ans).Sublist db.participants := List.filter_sublist _
  have hpairs : ((winnersOf db tid ans).map pairOf).Nodup :=
    (hsub.map pairOf).nodup h3
  have heq : (winnersOf db tid ans).map Participant.userId =
      ((winnersOf db tid ans).map pairOf).map Prod.snd := by
    rw [List.map_map]
    rfl
  rw [heq]
  apply List.Nodup.map_on ?_ hpairs
  intro x hx y hy hxy
  obtain ⟨p, hp, rfl⟩ := List.mem_map.mp hx
  obtain ⟨q, hq, rfl⟩ := List.mem_map.mp hy
  have hpx := List.mem_filter.mp hp
  have hqx := List.mem_filter.mp hq
  simp only [decide_eq_true_eq] at hpx hqx
  unfold pairOf
  simp only [Prod.mk.injEq]
  exact ⟨hpx.2.1.trans hqx.2.1.symm, hxy⟩

/-- After settlement the tournament row is stamped resolved with the
supplied answer, regardless of its previous status. -/
theorem resolve_findTournament (db : DB) (tid : Nat) (ans : String) (t : Tournament)
    (hTnd : (db.tournaments.map Tournament.id).Nodup)
    (ht : t ∈ db.tournaments) (htid : t.id = tid) :
    findTournament (resolve db tid ans).1 tid =
      some { t with status := TStatus.resolved, correctAnswer := some ans } := by
  unfold findTournament
  rw [resolve_fst_tournaments]
  rw [find?_key_map Tournament.id (resolveStamp tid ans)
    (fun w => by unfold resolveStamp; split <;> rfl) tid db.tournaments]
  rw [find?_eq_some_of_nodup Tournament.id hTnd ht (by simp [htid])
    (fun y _ hpy => by
      simp only [decide_eq_true_eq] at hpy
      exact hpy.trans htid.symm)]
  show some (resolveStamp tid ans t) = _
  unfold resolveStamp
  rw [if_pos htid]

/-- The found row of the stamped tournaments column. -/
theorem resolve_stamped_find (db : DB) (tid : Nat) (ans : String) (t : Tournament)
    (hTnd : (db.tournaments.map Tournament.id).Nodup)
    (ht : t ∈ db.tournaments) (htid : t.id = tid) :
    (db.tournaments.map (resolveStamp tid ans)).find? (fun w => decide (w.id = tid)) =
      some (resolveStamp tid ans t) := by
  rw [find?_key_map Tournament.id (resolveStamp tid ans)
    (fun w => by unfold resolveStamp; split <;> rfl) tid db.tournaments]
  rw [find?_eq_some_of_nodup Tournament.id hTnd ht (by simp [htid])
    (fun y _ hpy => by
      simp only [decide_eq_true_eq] at hpy
      exact hpy.trans htid.symm)]
  rfl

/-- Settlement with no matching winner rows credits nobody. -/
theorem resolve_users_empty (db : DB) (tid : Nat) (ans : String) (t : Tournament)
    (hTnd : (db.tournaments.map Tournament.id).Nodup)
    (ht : t ∈ db.tournaments) (htid : t.id = tid)
    (hW : winnersOf db tid ans = []) :
    (resolve db tid ans).1.users = db.users ∧
    (resolve db tid ans).2 = ResolveOutcome.noWinners := by
  have hWeq : winnersOf { db with
      tournaments := db.tournaments.map (resolveStamp tid ans) } tid ans =
      winnersOf db tid ans := rfl
  unfold resolve resolveCredit
  rw [resolve_stamped_find db tid ans t hTnd ht htid]
  simp only []
  rw [hWeq, hW]
  simp

/-- Settlement with a non-empty winner set reports the winner count and
the floored share, and rewrites the users table accordingly. -/
theorem resolve_users_winners (db : DB) (tid : Nat) (ans : String) (t : Tournament)
    (hv : Valid db) (ht : t ∈ db.tournaments) (htid : t.id = tid)
    (hW : winnersOf db tid ans ≠ []) :
    (resolve db tid ans).2 = ResolveOutcome.winners (winnersOf db tid ans).length
      (Int.fdiv t.prizePool ((winnersOf db tid ans).length : Int)) ∧
    (resolve db tid ans).1.users = db.users.map (fun v =>
      if v.id ∈ (winnersOf db tid ans).map Participant.userId then
        { v with
          points := v.points + Int.fdiv t.prizePool ((winnersOf db tid ans).length : Int),
          wonTournaments := v.wonTournaments + 1 }
      else v) := by
  have hTnd := hv.2.1
  have hWeq : winnersOf { db with
      tournaments := db.tournaments.map (resolveStamp tid ans) } tid ans =
      winnersOf db tid ans := rfl
  have hpool : (resolveStamp tid ans t).prizePool = t.prizePool := by
    unfold resolveStamp
    split <;> rfl
  have hne : (winnersOf db tid ans).isEmpty = false := by
    cases hWl : winnersOf db tid ans with
    | nil => exact absurd hWl hW
    | cons a l => rfl
  unfold resolve resolveCredit
  rw [resolve_stamped_find db tid ans t hTnd ht htid]
  simp only []
  rw [hWeq, hpool, hne]
  simp only [Bool.false_eq_true, if_false]
  refine ⟨?_, ?_⟩
  · first
      | rfl
      | trivial
  · exact credit_fold_eq_map _ _ _ (winners_userIds_nodup hv tid ans)

/-! ### Error behaviour of the entry transaction -/

/-- A missing (or inactive) tournament, or a missing user, trips the first
guard: the single merged `Tournament not found or not active` error. -/
theorem enter_notFoundOrNotActive (db : DB) (tid uid : Nat) (pred : String)
    (h : db.tournaments.find?
        (fun t => decide (t.id = tid ∧ t.status = TStatus.active)) = none ∨
      db.users.find? (fun u => decide (u.id = uid)) = none) :
    enter db tid uid pred = Except.error EnterError.tournamentNotFoundOrNotActive := by
  unfold enter
  rcases h with h | h
  · rw [h]
  · rw [h]
    cases db.tournaments.find?
      (fun t => decide (t.id = tid ∧ t.status = TStatus.active)) <;> rfl

/-- With the tournament and user rows found, the remaining guards fire in
the order funds, capacity, prior participation, each with its own error. -/
theorem enter_error_found {db : DB} {tid uid : Nat} (pred : String)
    {t : Tournament} {u : User}
    (hft : db.tournaments.find?
      (fun t => decide (t.id = tid ∧ t.status = TStatus.active)) = some t)
    (hfu : db.users.find? (fun u => decide (u.id = uid)) = some u) :
    (u.points < t.entryFee →
      enter db tid uid pred = Except.error EnterError.insufficientPoints) ∧
    (t.entryFee ≤ u.points → t.maxParticipants ≤ t.currentParticipants →
      enter db tid uid pred = Except.error EnterError.tournamentFull) ∧
    (t.entryFee ≤ u.points → t.currentParticipants < t.maxParticipants →
      (∃ p ∈ db.participants, p.tournamentId = tid ∧ p.userId = uid) →
      enter db tid uid pred = Except.error EnterError.alreadyParticipated) := by
  refine ⟨?_, ?_, ?_⟩
  · intro h1
    unfold enter
    rw [hft, hfu]
    simp only []
    rw [if_pos h1]
  · intro h1 h2
    unfold enter
    rw [hft, hfu]
    simp only []
    rw [if_neg (not_lt.mpr h1), if_pos h2]
  · intro h1 h2 h3
    have hany : db.participants.any
        (fun p => decide (p.tournamentId = tid ∧ p.userId = uid)) = true := by
      rw [List.any_eq_true]
      obtain ⟨p, hp, hprop⟩ := h3
      exact ⟨p, hp, by simpa using hprop⟩
    unfold enter
    rw [hft, hfu]
    simp only []
    rw [if_neg (not_lt.mpr h1), if_neg (not_le.mpr h2), hany]
    rfl

/-- Any failed entry rolls back: the boundary handler leaves the store as
it was. -/
theorem enter_error_rollback (db : DB) (tid uid : Nat) (pred : String) (e : EnterError)
    (he : enter db tid uid pred = Except.error e) :
    applyOp db (Op.enterT tid uid pred) = db := by
  show (match enter db tid uid pred with
    | Except.ok db2 => db2
    | Except.error _ => db) = db
  rw [he]

/-! ### Behaviour of the free claim -/

/-- A claim inside the cooldown window fails with the remaining wait. -/
theorem claimFree_cooldown (db : DB) (uid now : Nat) (u : User)
    (hfu : db.users.find? (fun v => decide (v.id = uid)) = some u)
    (last : Nat) (hlast : u.lastClaimDate = some last)
    (hcd : ((now : Int) - last).natAbs < cooldownMs) :
    claimFree db uid now =
      Except.error (ClaimError.cooldownActive (cooldownMs - ((now : Int) - last).natAbs)) := by
  unfold claimFree
  rw [hfu]
  simp only []
  rw [hlast]
  simp only []
  rw [if_pos hcd]

/-- A claim outside the cooldown window (or with no recorded claim)
credits the award and stamps the claim time. -/
theorem claimFree_grant (db : DB) (uid now : Nat) (u : User)
    (hfu : db.users.find? (fun v => decide (v.id = uid)) = some u)
    (hok : ∀ last, u.lastClaimDate = some last → cooldownMs ≤ ((now : Int) - last).natAbs) :
    claimFree db uid now = Except.ok (claimResult db uid now) := by
  unfold claimFree
  rw [hfu]
  simp only []
  cases hlast : u.lastClaimDate with
  | none => rfl
  | some last =>
    simp only []
    rw [if_neg (not_lt.mpr (hok last hlast))]
    rfl

/-- A granted claim is visible in the user's row: 500 more points and the
new claim timestamp. -/
theorem findUser_claimResult (db : DB) (uid now : Nat) (u : User)
    (hfu : db.users.find? (fun v => decide (v.id = uid)) = some u) (huid : u.id = uid) :
    findUser (claimResult db uid now) uid =
      some { u with points := u.points + claimPoints, lastClaimDate := some now } := by
  unfold findUser claimResult
  rw [find?_key_map User.id _ (fun v => by by_cases h : v.id = uid <;> simp [h]) uid]
  rw [hfu]
  show some (if u.id = uid then _ else u) = _
  rw [if_pos huid]

/-- A failed claim leaves the store unchanged. -/
theorem claimFree_error_rollback (db : DB) (uid now : Nat) (e : ClaimError)
    (hc : claimFree db uid now = Except.error e) :
    applyOp db (Op.claimT uid now) = db := by
  show (match claimFree db uid now with
    | Except.ok db2 => db2
    | Except.error _ => db) = db
  rw [hc]

/-! ### Row views of a committed entry -/

/-- After a committed entry the user's row shows the debited balance. -/
theorem findUser_enterResult (db : DB) (tid uid : Nat) (pred : String) (fee : Int)
    (u : User) (hfu : db.users.find? (fun v => decide (v.id = uid)) = some u)
    (huid : u.id = uid) :
    findUser (enterResult db tid uid pred fee) uid =
      some { u with points := u.points - fee } := by
  unfold findUser enterResult
  rw [find?_key_map User.id _ (fun v => by by_cases h : v.id = uid <;> simp [h]) uid]
  rw [hfu]
  show some (if u.id = uid then _ else u) = _
  rw [if_pos huid]

/-- After a committed entry the tournament's row shows the bumped counter
and pool. -/
theorem findTournament_enterResult (db : DB) (tid uid : Nat) (pred : String) (fee : Int)
    (t : Tournament)
    (hft : db.tournaments.find? (fun w => decide (w.id = tid)) = some t)
    (htid : t.id = tid) :
    findTournament (enterResult db tid uid pred fee) tid =
      some { t with currentParticipants := t.currentParticipants + 1,
                    prizePool := t.prizePool + fee } := by
  unfold findTournament enterResult
  rw [find?_key_map Tournament.id _ (fun w => by by_cases h : w.id = tid <;> simp [h]) tid]
  rw [hft]
  show some (if t.id = tid then _ else t) = _
  rw [if_pos htid]

/-! ### Concrete fixtures (mirroring the seeded sample data) -/

/-- An active sample tournament with fee 100 and room for 50 players. -/
def exTournament : Tournament :=
  { id := 1, options := ["Above", "Below"], entryFee := 100, maxParticipants := 50,
    currentParticipants := 0, prizePool := 0, startTime := 0, endTime := 7200000,
    status := TStatus.active, correctAnswer := none }

/-- A registered user holding the initial 1000 points. -/
def exUser : User :=
  { id := 1, points := 1000, totalTournaments := 0, wonTournaments := 0,
    lastClaimDate := none }

/-- A small user row for scenarios. -/
def cUser (i : Nat) (pts : Int) : User :=
  { id := i, points := pts, totalTournaments := 0, wonTournaments := 0,
    lastClaimDate := none }

/-- A fresh store with one user and one active tournament. -/
def exDB : DB := { users := [exUser], tournaments := [exTournament], participants := [] }

/-- A store with the tournament id absent entirely. -/
def exDBNoTournament : DB :=
  { users := [exUser], tournaments := [], participants := [] }

/-- The same tournament, already closed. -/
def exClosedTournament : Tournament := { exTournament with status := TStatus.closed }

/-- A store where tournament 1 exists but is closed. -/
def exDBClosed : DB :=
  { users := [exUser], tournaments := [exClosedTournament], participants := [] }

/-- A store whose single user cannot afford the fee. -/
def c2DB : DB :=
  { users := [cUser 1 50], tournaments := [exTournament], participants := [] }

/-- A closed tournament holding a 100-point pool over three entries. -/
def c3T : Tournament :=
  { id := 1, options := ["Yes", "No"], entryFee := 100, maxParticipants := 50,
    currentParticipants := 3, prizePool := 100, startTime := 0, endTime := 10,
    status := TStatus.closed, correctAnswer := none }

/-- A participation row for the settlement scenario. -/
def c3P (i : Nat) (paid : Int) : Participant :=
  { tournamentId := 1, userId := i, prediction := "Yes", pointsPaid := paid }

/-- Three players who all predicted the winning label on a 100-point pool. -/
def c3DB : DB :=
  { users := [cUser 1 10, cUser 2 20, cUser 3 30],
    tournaments := [c3T],
    participants := [c3P 1 34, c3P 2 33, c3P 3 33] }

/-- The tournament row after one entry at fee 100. -/
def exT1 : Tournament :=
  { exTournament with currentParticipants := 1, prizePool := 100 }

/-- A user who claimed at time 0. -/
def uC8 : User :=
  { id := 1, points := 700, totalTournaments := 0, wonTournaments := 0,
    lastClaimDate := some 0 }

/-- A store for the cooldown scenario. -/
def c8DB : DB := { users := [uC8], tournaments := [], participants := [] }

/-- A store with no tournaments at all, for unguarded resolution. -/
def c10DB : DB := { users := [cUser 1 5], tournaments := [], participants := [] }

/-! ### The claims -/

/-- C1: under the four entry preconditions (active tournament, points at
least the fee, free capacity, no prior participation), `enter` succeeds in
one unit and debits exactly the fee from the user, inserts exactly one
participation row with the prediction and fee paid, increments
`currentParticipants`, and adds the fee to `prizePool`. -/
theorem c1_enter_effects (db : DB) (tid uid : Nat) (pred : String)
    (t : Tournament) (u : User) (hv : Valid db)
    (ht : t ∈ db.tournaments) (htid : t.id = tid) (hact : t.status = TStatus.active)
    (hu : u ∈ db.users) (huid : u.id = uid)
    (hfee : t.entryFee ≤ u.points)
    (hcap : t.currentParticipants < t.maxParticipants)
    (hnop : ∀ p ∈ db.participants, ¬(p.tournamentId = tid ∧ p.userId = uid)) :
    ∃ db2, enter db tid uid pred = Except.ok db2 ∧
      findUser db2 uid = some { u with points := u.points - t.entryFee } ∧
      findTournament db2 tid = some { t with
        currentParticipants := t.currentParticipants + 1,
        prizePool := t.prizePool + t.entryFee } ∧
      db2.participants = db.participants ++
        [{ tournamentId := tid, userId := uid, prediction := pred,
           pointsPaid := t.entryFee }] := by
  have h1 := hv.1
  have h2 := hv.2.1
  refine ⟨enterResult db tid uid pred t.entryFee,
    enter_ok_of h1 h2 ht htid hact hu huid hfee hcap hnop, ?_, ?_, rfl⟩
  · have hfu : db.users.find? (fun v => decide (v.id = uid)) = some u :=
      find?_eq_some_of_nodup User.id h1 hu (by simp [huid])
        (fun y _ hpy => by
          simp only [decide_eq_true_eq] at hpy
          exact hpy.trans huid.symm)
    exact findUser_enterResult db tid uid pred t.entryFee u hfu huid
  · have hft : db.tournaments.find? (fun w => decide (w.id = tid)) = some t :=
      find?_eq_some_of_nodup Tournament.id h2 ht (by simp [htid])
        (fun y _ hpy => by
          simp only [decide_eq_true_eq] at hpy
          exact hpy.trans htid.symm)
    exact findTournament_enterResult db tid uid pred t.entryFee t hft htid

/-- C1 witness: the documented scenario, a user with 1000 points entering
at fee 100. -/
theorem c1_enter_effects_witness : Valid exDB ∧
    (∃ db2, enter exDB 1 1 "Above" = Except.ok db2 ∧
      findUser db2 1 = some { exUser with points := exUser.points - exTournament.entryFee } ∧
      findTournament db2 1 = some { exTournament with
        currentParticipants := exTournament.currentParticipants + 1,
        prizePool := exTournament.prizePool + exTournament.entryFee } ∧
      db2.participants = exDB.participants ++
        [{ tournamentId := 1, userId := 1, prediction := "Above",
           pointsPaid := exTournament.entryFee }]) :=
  ⟨by decide, c1_enter_effects exDB 1 1 "Above" exTournament exUser (by decide)
    (by decide) rfl rfl (by decide) rfl (by decide) (by decide) (by decide)⟩

/-- C2 counterexample: a missing tournament and an existing but closed
tournament fail with the same merged error kind, so the code does not
produce distinct `NotFound` and `NotActive` errors. -/
theorem c2_counterexample :
    enter exDBNoTournament 1 1 "Above" =
      Except.error EnterError.tournamentNotFoundOrNotActive ∧
    enter exDBClosed 1 1 "Above" =
      Except.error EnterError.tournamentNotFoundOrNotActive :=
  ⟨rfl, rfl⟩

/-- C2 (amended): a failed entry reports the first violated check in the
order (existence and activeness merged into one kind), funds, capacity,
prior participation, with distinct kinds for the latter three, and rolls
back, leaving the store unchanged. -/
theorem c2_enter_errors (db : DB) (tid uid : Nat) (pred : String) (hv : Valid db) :
    ((¬ ∃ t ∈ db.tournaments, t.id = tid ∧ t.status = TStatus.active) ∨
        (¬ ∃ u ∈ db.users, u.id = uid) →
      enter db tid uid pred = Except.error EnterError.tournamentNotFoundOrNotActive) ∧
    (∀ t, t ∈ db.tournaments → t.id = tid → t.status = TStatus.active →
      ∀ u, u ∈ db.users → u.id = uid →
      (u.points < t.entryFee →
        enter db tid uid pred = Except.error EnterError.insufficientPoints) ∧
      (t.entryFee ≤ u.points → t.maxParticipants ≤ t.currentParticipants →
        enter db tid uid pred = Except.error EnterError.tournamentFull) ∧
      (t.entryFee ≤ u.points → t.currentParticipants < t.maxParticipants →
        (∃ p ∈ db.participants, p.tournamentId = tid ∧ p.userId = uid) →
        enter db tid uid pred = Except.error EnterError.alreadyParticipated)) ∧
    (∀ e, enter db tid uid pred = Except.error e →
      applyOp db (Op.enterT tid uid pred) = db) := by
  refine ⟨?_, ?_, enter_error_rollback db tid uid pred⟩
  · intro h
    apply enter_notFoundOrNotActive
    rcases h with h | h
    · exact Or.inl (List.find?_eq_none.mpr (fun t ht => by
        simp only [decide_eq_true_eq]
        exact fun hc => h ⟨t, ht, hc⟩))
    · exact Or.inr (List.find?_eq_none.mpr (fun u hu => by
        simp only [decide_eq_true_eq]
        exact fun hc => h ⟨u, hu, hc⟩))
  · intro t ht htid hact u hu huid
    have hft : db.tournaments.find?
        (fun w => decide (w.id = tid ∧ w.status = TStatus.active)) = some t :=
      find?_eq_some_of_nodup Tournament.id hv.2.1 ht (by simp [htid, hact])
        (fun y _ hpy => by
          simp only [decide_eq_true_eq] at hpy
          exact hpy.1.trans htid.symm)
    have hfu : db.users.find? (fun v => decide (v.id = uid)) = some u :=
      find?_eq_some_of_nodup User.id hv.1 hu (by simp [huid])
        (fun y _ hpy => by
          simp only [decide_eq_true_eq] at hpy
          exact hpy.trans huid.symm)
    exact enter_error_found pred hft hfu

/-- C2 witness: a user with 50 points cannot pay the 100-point fee and is
turned away with the distinct insufficient-points error. -/
theorem c2_enter_errors_witness : Valid c2DB ∧
    enter c2DB 1 1 "Above" = Except.error EnterError.insufficientPoints :=
  ⟨by decide,
    ((c2_enter_errors c2DB 1 1 "Above" (by decide)).2.1 exTournament (by decide) rfl rfl
      (cUser 1 50) (by decide) rfl).1 (by decide)⟩

/-- C3: settlement stamps the tournament resolved with the recorded answer;
with no matching predictions nobody is credited; otherwise the handler
reports the winner count and the floored share, credits exactly that share
to each winner and increments their win counter, leaving everyone else
untouched (the division remainder stays in the pool). -/
theorem c3_settlement (db : DB) (tid : Nat) (ans : String) (t : Tournament)
    (hv : Valid db) (ht : t ∈ db.tournaments) (htid : t.id = tid) :
    findTournament (resolve db tid ans).1 tid =
      some { t with status := TStatus.resolved, correctAnswer := some ans } ∧
    (winnersOf db tid ans = [] →
      (resolve db tid ans).1.users = db.users ∧
      (resolve db tid ans).2 = ResolveOutcome.noWinners) ∧
    (winnersOf db tid ans ≠ [] →
      (resolve db tid ans).2 = ResolveOutcome.winners (winnersOf db tid ans).length
        (Int.fdiv t.prizePool ((winnersOf db tid ans).length : Int)) ∧
      ∀ v ∈ db.users, findUser (resolve db tid ans).1 v.id =
        some (if v.id ∈ (winnersOf db tid ans).map Participant.userId then
          { v with
            points := v.points +
              Int.fdiv t.prizePool ((winnersOf db tid ans).length : Int),
            wonTournaments := v.wonTournaments + 1 }
          else v)) := by
  have h1 := hv.1
  have hTnd := hv.2.1
  refine ⟨resolve_findTournament db tid ans t hTnd ht htid,
    resolve_users_empty db tid ans t hTnd ht htid, ?_⟩
  intro hW
  obtain ⟨hout, husers⟩ := resolve_users_winners db tid ans t hv ht htid hW
  refine ⟨hout, ?_⟩
  intro v hv'
  unfold findUser
  rw [husers]
  rw [find?_key_map User.id _
    (fun w => by
      by_cases h : w.id ∈ (winnersOf db tid ans).map Participant.userId <;> simp [h])
    v.id]
  rw [find?_eq_some_of_nodup User.id h1 hv' (by simp)
    (fun y _ hpy => by simpa using hpy)]
  rfl

/-- C3 witness: the documented scenario, a 100-point pool split among 3
winners pays 33 each; the 1-point remainder is not distributed. -/
theorem c3_settlement_witness :
    (resolve c3DB 1 "Yes").2 = ResolveOutcome.winners 3 33 ∧
    findUser (resolve c3DB 1 "Yes").1 1 =
      some { cUser 1 10 with points := 10 + 33, wonTournaments := 1 } := by
  have h := c3_settlement c3DB 1 "Yes" c3T (by decide) (by decide) rfl
  have h2 := h.2.2 (by decide)
  refine ⟨?_, ?_⟩
  · rw [h2.1]
    rfl
  · have h3 := h2.2 (cUser 1 10) (by decide)
    exact h3.trans (by decide)

/-- C4: starting from any valid store, every user balance stays a
non-negative integer after every sequence of operations. -/
theorem c4_points_nonneg (db : DB) (hv : Valid db) (ops : List Op) :
    ∀ u ∈ (runOps db ops).users, 0 ≤ u.points :=
  fun u hu => (valid_runOps hv ops).2.2.2.1 u hu

/-- C4 witness: after paying the 100-point fee, the 1000-point user sits at
900, still non-negative. -/
theorem c4_points_nonneg_witness : Valid exDB ∧
    0 ≤ ({ id := 1, points := 900, totalTournaments := 0, wonTournaments := 0,
           lastClaimDate := none } : User).points :=
  ⟨by decide, c4_points_nonneg exDB (by decide) [Op.enterT 1 1 "Above"] _ (by decide)⟩

/-- C5: after every operation sequence, each tournament's
`currentParticipants` equals its participation-row count, never exceeds
`maxParticipants`, and its `prizePool` equals the sum of fees paid; with a
constant fee `F` over `N` rows the pool is exactly `N * F`. -/
theorem c5_counters (db : DB) (hv : Valid db) (ops : List Op) :
    ∀ t ∈ (runOps db ops).tournaments,
      t.currentParticipants = (partsOf (runOps db ops) t.id).length ∧
      t.currentParticipants ≤ t.maxParticipants ∧
      t.prizePool = ((partsOf (runOps db ops) t.id).map Participant.pointsPaid).sum ∧
      ∀ F : Int, (∀ p ∈ partsOf (runOps db ops) t.id, p.pointsPaid = F) →
        t.prizePool = ((partsOf (runOps db ops) t.id).length : Int) * F := by
  intro t ht
  obtain ⟨_, c2, c3, c4⟩ := (valid_runOps hv ops).2.2.2.2.2 t ht
  refine ⟨c3, c2, c4, ?_⟩
  intro F hF
  rw [c4]
  rw [List.sum_eq_card_nsmul _ F (fun x hx => by
    obtain ⟨p, hp, rfl⟩ := List.mem_map.mp hx
    exact hF p hp)]
  simp [nsmul_eq_mul]

/-- C5 witness: one entry at fee 100 gives a pool of exactly 1 * 100. -/
theorem c5_counters_witness : Valid exDB ∧
    exT1.prizePool =
      ((partsOf (runOps exDB [Op.enterT 1 1 "Above"]) exT1.id).length : Int) * 100 :=
  ⟨by decide,
    (c5_counters exDB (by decide) [Op.enterT 1 1 "Above"] exT1 (by decide)).2.2.2 100
      (by decide)⟩

/-- C6: after any operation sequence there is at most one participation
row per (tournament, user) pair, and the participation table is
append-only: existing rows are never modified or deleted. -/
theorem c6_participation_unique (db : DB) (hv : Valid db) (ops : List Op) :
    ((runOps db ops).participants.map pairOf).Nodup ∧
    ∃ tail, (runOps db ops).participants = db.participants ++ tail :=
  ⟨(valid_runOps hv ops).2.2.1, runOps_participants_append db ops⟩

/-- C6 witness: a duplicate entry attempt leaves one row for the pair. -/
theorem c6_participation_unique_witness :
    ((runOps exDB [Op.enterT 1 1 "Above", Op.enterT 1 1 "Below"]).participants.map
      pairOf).Nodup ∧
    ∃ tail, (runOps exDB
        [Op.enterT 1 1 "Above", Op.enterT 1 1 "Below"]).participants =
      exDB.participants ++ tail :=
  c6_participation_unique exDB (by decide) [Op.enterT 1 1 "Above", Op.enterT 1 1 "Below"]

/-- C7: statuses only move forward along pending, active, closed, resolved
under every operation sequence (resolved terminal); the sweep never
produces resolved, so the closed-to-resolved step belongs to the
administrative resolution alone; and re-running the sweep changes nothing. -/
theorem c7_lifecycle (db : DB) (ops : List Op) (now : Nat) :
    List.Forall₂ StatusStep db.tournaments (runOps db ops).tournaments ∧
    List.Forall₂ (fun t t' => t'.status = TStatus.resolved → t.status = TStatus.resolved)
      db.tournaments (sweep db now).tournaments ∧
    (∀ op, (∀ tid2 ans2, op ≠ Op.resolveT tid2 ans2) → (∀ n2, op ≠ Op.sweepT n2) →
      List.Forall₂ (fun t t' => t'.status = t.status)
        db.tournaments (applyOp db op).tournaments) ∧
    sweep (sweep db now) now = sweep db now :=
  ⟨runOps_status_mono db ops, sweep_no_resolve db now,
    fun op hr hs => applyOp_status_preserved db op hr hs, sweep_idem db now⟩

/-- C7 witness: sweep idempotence on the sample store. -/
theorem c7_lifecycle_witness : sweep (sweep exDB 0) 0 = sweep exDB 0 :=
  (c7_lifecycle exDB [] 0).2.2.2

/-- C8: with the clock at or past the recorded claim time, the free claim
fails with `CooldownActive` (reporting the remaining wait and leaving the
store unchanged) exactly when a previous claim lies less than 24 hours
back; otherwise it credits the fixed 500-point award and stamps the claim
time. -/
theorem c8_claim_cooldown (db : DB) (uid now : Nat) (u : User) (hv : Valid db)
    (hu : u ∈ db.users) (huid : u.id = uid)
    (hpast : ∀ last, u.lastClaimDate = some last → last ≤ now) :
    ((∃ r, claimFree db uid now = Except.error (ClaimError.cooldownActive r)) ↔
      ∃ last, u.lastClaimDate = some last ∧ now < last + cooldownMs) ∧
    (∀ last, u.lastClaimDate = some last → now < last + cooldownMs →
      claimFree db uid now =
        Except.error (ClaimError.cooldownActive (cooldownMs - (now - last)))) ∧
    ((∀ last, u.lastClaimDate = some last → last + cooldownMs ≤ now) →
      ∃ db2, claimFree db uid now = Except.ok db2 ∧
        findUser db2 uid = some { u with points := u.points + claimPoints,
                                         lastClaimDate := some now }) ∧
    (∀ e, claimFree db uid now = Except.error e →
      applyOp db (Op.claimT uid now) = db) := by
  have hfu : db.users.find? (fun v => decide (v.id = uid)) = some u :=
    find?_eq_some_of_nodup User.id hv.1 hu (by simp [huid])
      (fun y _ hpy => by
        simp only [decide_eq_true_eq] at hpy
        exact hpy.trans huid.symm)
  have hcool : ∀ last, u.lastClaimDate = some last → now < last + cooldownMs →
      claimFree db uid now =
        Except.error (ClaimError.cooldownActive (cooldownMs - (now - last))) := by
    intro last hlast hlt
    have hle := hpast last hlast
    have habs : ((now : Int) - last).natAbs = now - last := by omega
    have hcd : ((now : Int) - last).natAbs < cooldownMs := by omega
    have hres := claimFree_cooldown db uid now u hfu last hlast hcd
    rw [habs] at hres
    exact hres
  refine ⟨⟨?_, ?_⟩, hcool, ?_, claimFree_error_rollback db uid now⟩
  · rintro ⟨r, herr⟩
    cases hlast : u.lastClaimDate with
    | none =>
      have := claimFree_grant db uid now u hfu
        (fun l hl => by rw [hlast] at hl; cases hl)
      rw [this] at herr
      cases herr
    | some last =>
      by_cases hlt : now < last + cooldownMs
      · exact ⟨last, rfl, hlt⟩
      · have hle := hpast last hlast
        have := claimFree_grant db uid now u hfu
          (fun l hl => by
            rw [hlast] at hl
            cases hl
            omega)
        rw [this] at herr
        cases herr
  · rintro ⟨last, hlast, hlt⟩
    exact ⟨cooldownMs - (now - last), hcool last hlast hlt⟩
  · intro hok
    refine ⟨claimResult db uid now, claimFree_grant db uid now u hfu ?_,
      findUser_claimResult db uid now u hfu huid⟩
    intro last hlast
    have h1 := hok last hlast
    have h2 := hpast last hlast
    omega

/-- C8 witness: the documented scenario, a second claim within 24 hours
fails with the cooldown error and the remaining wait. -/
theorem c8_claim_cooldown_witness : Valid c8DB ∧
    claimFree c8DB 1 1000 =
      Except.error (ClaimError.cooldownActive (cooldownMs - (1000 - 0))) :=
  ⟨by decide,
    (c8_claim_cooldown c8DB 1 1000 uC8 (by decide) (by decide) rfl
      (fun last hl => by cases hl; omega)).2.1 0 rfl (by decide)⟩

/-- C9: the entry transaction never checks the prediction against the
tournament's option list: any string, including one absent from the
options, is accepted and recorded verbatim whenever the four entry
preconditions hold. -/
theorem c9_prediction_unchecked (db : DB) (tid uid : Nat) (pred : String)
    (t : Tournament) (u : User) (hv : Valid db)
    (ht : t ∈ db.tournaments) (htid : t.id = tid) (hact : t.status = TStatus.active)
    (hu : u ∈ db.users) (huid : u.id = uid)
    (hfee : t.entryFee ≤ u.points)
    (hcap : t.currentParticipants < t.maxParticipants)
    (hnop : ∀ p ∈ db.participants, ¬(p.tournamentId = tid ∧ p.userId = uid)) :
    ∃ db2, enter db tid uid pred = Except.ok db2 ∧
      db2.participants = db.participants ++
        [{ tournamentId := tid, userId := uid, prediction := pred,
           pointsPaid := t.entryFee }] :=
  ⟨enterResult db tid uid pred t.entryFee,
    enter_ok_of hv.1 hv.2.1 ht htid hact hu huid hfee hcap hnop, rfl⟩

/-- C9 witness: a string that is not one of the tournament's options is
accepted and stored. -/
theorem c9_prediction_unchecked_witness :
    "Nonsense" ∉ exTournament.options ∧
    ∃ db2, enter exDB 1 1 "Nonsense" = Except.ok db2 ∧
      db2.participants = exDB.participants ++
        [{ tournamentId := 1, userId := 1, prediction := "Nonsense",
           pointsPaid := exTournament.entryFee }] :=
  ⟨by decide, c9_prediction_unchecked exDB 1 1 "Nonsense" exTournament exUser (by decide)
    (by decide) rfl rfl (by decide) rfl (by decide) (by decide) (by decide)⟩

/-- C10: resolution has no existence or status guard: an id matching no
tournament still succeeds, credits nobody and reports no winners, and a
tournament in any status is stamped resolved with the supplied answer. -/
theorem c10_resolve_unguarded (db : DB) (tid : Nat) (ans : String)
    (hTnd : (db.tournaments.map Tournament.id).Nodup) :
    (findTournament db tid = none →
      (resolve db tid ans).1.users = db.users ∧
      (resolve db tid ans).2 = ResolveOutcome.noWinners ∧
      (resolve db tid ans).1.tournaments = db.tournaments) ∧
    (∀ t, t ∈ db.tournaments → t.id = tid →
      findTournament (resolve db tid ans).1 tid =
        some { t with status := TStatus.resolved, correctAnswer := some ans }) :=
  ⟨resolve_missing db tid ans,
    fun t ht htid => resolve_findTournament db tid ans t hTnd ht htid⟩

/-- C10 witness: resolving a nonexistent tournament id succeeds with no
winners and no mutation. -/
theorem c10_resolve_unguarded_witness :
    (resolve c10DB 42 "X").1.users = c10DB.users ∧
    (resolve c10DB 42 "X").2 = ResolveOutcome.noWinners ∧
    (resolve c10DB 42 "X").1.tournaments = c10DB.tournaments :=
  (c10_resolve_unguarded c10DB 42 "X" (by decide)).1 rfl

end Polycentral
